import Mathlib

/-!
Verification of the response parser of the letter-analyzer backend
(`src/backend/main.py`, function `parse_ai_response`).

The parser splits the model's reply on newline characters, strips each
line, and walks the lines with a mutable "current section" pointer,
filling a record with five fields (summary, highlights, what_to_do,
important_dates, email_prompt).

Strings are embedded as `List Char`; Python's `str.strip()` is
`stripChars`, `in` (substring test) is `hasSub`, `startswith` is
`ledBy`, and `split('\n')` is `splitOnNl`.
-/

/-- Whitespace characters removed by Python's `str.strip()` (ASCII part). -/
def isSpc (c : Char) : Bool :=
  c == ' ' || c == '\t' || c == '\n' || c == '\r' || c == '\x0b' || c == '\x0c'

/-- Embedding of Python `str.strip()`: drop whitespace from both ends. -/
def stripChars (l : List Char) : List Char :=
  ((l.dropWhile isSpc).reverse.dropWhile isSpc).reverse

/-- Embedding of Python `str.startswith(pat)`. -/
def ledBy : List Char → List Char → Bool
  | [], _ => true
  | _ :: _, [] => false
  | a :: as, b :: bs => a == b && ledBy as bs

/-- Embedding of Python `pat in s` (substring containment). -/
def hasSub (pat : List Char) : List Char → Bool
  | [] => pat.isEmpty
  | c :: cs => ledBy pat (c :: cs) || hasSub pat cs

/-- Embedding of Python `s.split('\n')`: splits on every newline, keeping
empty pieces; the empty string yields one empty piece. -/
def splitOnNl : List Char → List (List Char)
  | [] => [[]]
  | c :: cs =>
    match splitOnNl cs with
    | [] => [[]]
    | l :: ls => if c == '\n' then [] :: l :: ls else (c :: l) :: ls

/-- The five section-header marker strings checked by the parser. -/
def mSummary : List Char := "**Summary:**".data

def mHighlights : List Char := "**Highlights:**".data

def mWhatToDo : List Char := "**What To Do:**".data

def mImportantDates : List Char := "**Important Dates:**".data

def mEmailPrompt : List Char := "**Email Prompt:**".data

/-- The bullet marker `"- "`. -/
def mBullet : List Char := "- ".data

/-- The bold marker `"**"` used by the `startswith("**")` guards. -/
def mBold : List Char := "**".data

/-- The five sections tracked by the parser's `current_section` variable. -/
inductive Sec
  | summary
  | highlights
  | whatToDo
  | importantDates
  | emailPrompt
deriving DecidableEq, Repr

/-- The marker string that switches the parser into a given section. -/
def markerOf : Sec → List Char
  | .summary => mSummary
  | .highlights => mHighlights
  | .whatToDo => mWhatToDo
  | .importantDates => mImportantDates
  | .emailPrompt => mEmailPrompt

/-- Position of a section's marker in the `if/elif` chain of the code. -/
def secRank : Sec → Nat
  | .summary => 0
  | .highlights => 1
  | .whatToDo => 2
  | .importantDates => 3
  | .emailPrompt => 4

/-- The loop state of `parse_ai_response`: the five accumulating fields
plus the `current_section` pointer. -/
structure ParseState where
  summary : List Char
  highlights : List (List Char)
  what_to_do : List (List Char)
  important_dates : List (List Char)
  email_prompt : Option (List Char)
  current_section : Option Sec
deriving DecidableEq, Repr

/-- Initial loop state: all fields at their defaults, no section. -/
def initState : ParseState :=
  { summary := []
    highlights := []
    what_to_do := []
    important_dates := []
    email_prompt := none
    current_section := none }

/-- Body of the parser's `for` loop after the `line = line.strip()`
statement: the `if/elif` chain of `parse_ai_response` applied to the
already-stripped line. -/
def procStripped (s : ParseState) (line : List Char) : ParseState :=
  if line = [] then s
  else if hasSub mSummary line = true then
    { s with current_section := some Sec.summary }
  else if hasSub mHighlights line = true then
    { s with current_section := some Sec.highlights }
  else if hasSub mWhatToDo line = true then
    { s with current_section := some Sec.whatToDo }
  else if hasSub mImportantDates line = true then
    { s with current_section := some Sec.importantDates }
  else if hasSub mEmailPrompt line = true then
    { s with current_section := some Sec.emailPrompt }
  else if ledBy mBullet line = true ∧
      (s.current_section = some Sec.highlights ∨
       s.current_section = some Sec.whatToDo ∨
       s.current_section = some Sec.importantDates) then
    if s.current_section = some Sec.highlights then
      { s with highlights := s.highlights ++ [stripChars (line.drop 2)] }
    else if s.current_section = some Sec.whatToDo then
      { s with what_to_do := s.what_to_do ++ [stripChars (line.drop 2)] }
    else if s.current_section = some Sec.importantDates then
      { s with important_dates := s.important_dates ++ [stripChars (line.drop 2)] }
    else s
  else if s.current_section = some Sec.summary ∧ line ≠ [] ∧
      ledBy mBold line = false then
    { s with summary := line }
  else if s.current_section = some Sec.emailPrompt ∧ line ≠ [] ∧
      ledBy mBold line = false then
    { s with email_prompt := some line }
  else s

/-- One iteration of the parser's `for` loop on a raw (unstripped) line. -/
def processLine (s : ParseState) (raw : List Char) : ParseState :=
  procStripped s (stripChars raw)

/-- Folding the loop body over a list of raw lines from the initial state. -/
def parseLines (ls : List (List Char)) : ParseState :=
  ls.foldl processLine initState

/-- The structured record returned by the parser (`AnalysisResponse` in the
code): `email_prompt` is optional, the other fields are mandatory. -/
structure AnalysisResponse where
  summary : List Char
  highlights : List (List Char)
  what_to_do : List (List Char)
  important_dates : List (List Char)
  email_prompt : Option (List Char)
deriving DecidableEq, Repr

/-- Embedding of `parse_ai_response`: split the text on newlines, run the
loop, and package the final state as an `AnalysisResponse`. -/
def parse_ai_response (response_text : String) : AnalysisResponse :=
  let st := parseLines (splitOnNl response_text.data)
  { summary := st.summary
    highlights := st.highlights
    what_to_do := st.what_to_do
    important_dates := st.important_dates
    email_prompt := st.email_prompt }

example : parse_ai_response "**Summary:**\nHello there" =
    { summary := "Hello there".data, highlights := [], what_to_do := [],
      important_dates := [], email_prompt := none } := by decide

example : parse_ai_response "**Highlights:**\n- A\n- B\n**What To Do:**\n- C" =
    { summary := [], highlights := ["A".data, "B".data],
      what_to_do := ["C".data], important_dates := [],
      email_prompt := none } := by decide

example : (parse_ai_response "**Summary:**\n- hello").summary = "- hello".data := by decide

example : parse_ai_response "" =
    { summary := [], highlights := [], what_to_do := [],
      important_dates := [], email_prompt := none } := by decide

/-! ## Basic lemmas about the string primitives -/

theorem ledBy_append {p l r : List Char} (h : ledBy p l = true) :
    ledBy p (l ++ r) = true := by
  induction p generalizing l with
  | nil => rfl
  | cons a as ih =>
    cases l with
    | nil => simp [ledBy] at h
    | cons b bs =>
      simp only [ledBy, Bool.and_eq_true] at h ⊢
      exact ⟨h.1, ih h.2⟩

theorem hasSub_nil_pat (l : List Char) : hasSub [] l = true := by
  induction l with
  | nil => rfl
  | cons c cs ih => simp [hasSub, ledBy, ih]

theorem hasSub_cons {p : List Char} {c : Char} {cs : List Char}
    (h : hasSub p cs = true) : hasSub p (c :: cs) = true := by
  simp [hasSub, h]

theorem hasSub_append_right {p x : List Char} (h : hasSub p x = true)
    (l : List Char) : hasSub p (l ++ x) = true := by
  induction l with
  | nil => simpa using h
  | cons c cs ih => exact hasSub_cons ih

theorem hasSub_append_left {p x : List Char} (h : hasSub p x = true)
    (r : List Char) : hasSub p (x ++ r) = true := by
  induction x with
  | nil =>
    simp only [hasSub, List.isEmpty_iff] at h
    subst h
    exact hasSub_nil_pat r
  | cons c cs ih =>
    simp only [hasSub, Bool.or_eq_true] at h
    rcases h with h | h
    · simp only [List.cons_append, hasSub, Bool.or_eq_true]
      exact Or.inl (ledBy_append h)
    · simp only [List.cons_append, hasSub, Bool.or_eq_true]
      exact Or.inr (ih h)

theorem hasSub_of_part {p x l r : List Char} (h : hasSub p x = true) :
    hasSub p (l ++ x ++ r) = true := by
  rw [List.append_assoc]
  exact hasSub_append_right (hasSub_append_left h r) l

theorem ne_nil_of_hasSub {p l : List Char} (hp : p ≠ [])
    (h : hasSub p l = true) : l ≠ [] := by
  intro hl
  subst hl
  simp only [hasSub, List.isEmpty_iff] at h
  exact hp h

theorem ne_nil_of_ledBy {p l : List Char} (hp : p ≠ [])
    (h : ledBy p l = true) : l ≠ [] := by
  intro hl
  subst hl
  cases p with
  | nil => exact hp rfl
  | cons a as => simp [ledBy] at h

theorem ledBy_bullet_shape {l : List Char} (h : ledBy mBullet l = true) :
    ∃ rest, l = '-' :: ' ' :: rest := by
  cases l with
  | nil => simp [mBullet, ledBy] at h
  | cons a as =>
    cases as with
    | nil =>
      simp only [mBullet] at h
      simp [ledBy] at h
    | cons b bs =>
      simp only [mBullet] at h
      simp only [ledBy, Bool.and_eq_true, beq_iff_eq] at h
      obtain ⟨ha, hb, -⟩ := h
      exact ⟨bs, by simp [← ha, ← hb]⟩

theorem ledBy_bold_of_bullet {l : List Char} (h : ledBy mBullet l = true) :
    ledBy mBold l = false := by
  obtain ⟨rest, rfl⟩ := ledBy_bullet_shape h
  simp [mBold, ledBy]

/-! ## Lemmas about `dropWhile` and `stripChars` -/

theorem dropWhile_head_false {p : Char → Bool} {l : List Char} {c : Char}
    {t : List Char} (h : l.dropWhile p = c :: t) : p c = false := by
  induction l with
  | nil => simp [List.dropWhile] at h
  | cons b bs ih =>
    rw [List.dropWhile_cons] at h
    by_cases hb : p b
    · simp only [hb, if_true] at h
      exact ih h
    · simp only [Bool.not_eq_true] at hb
      simp only [hb, Bool.false_eq_true, if_false] at h
      injection h with h1 h2
      subst h1
      exact hb

theorem dropWhile_sfx (p : Char → Bool) (l : List Char) :
    ∃ a, l = a ++ l.dropWhile p := by
  induction l with
  | nil => exact ⟨[], rfl⟩
  | cons c cs ih =>
    by_cases hc : p c
    · obtain ⟨a, ha⟩ := ih
      refine ⟨c :: a, ?_⟩
      rw [List.dropWhile, hc]
      simpa using ha
    · refine ⟨[], ?_⟩
      simp only [Bool.not_eq_true] at hc
      rw [List.dropWhile, hc]
      rfl

theorem dropWhile_idem (p : Char → Bool) (l : List Char) :
    (l.dropWhile p).dropWhile p = l.dropWhile p := by
  cases h : l.dropWhile p with
  | nil => rfl
  | cons c t =>
    have hc : p c = false := dropWhile_head_false h
    rw [List.dropWhile_cons, hc]
    simp

theorem dropWhile_rev_fix {p : Char → Bool} {l : List Char}
    (h : l.reverse.dropWhile p = l.reverse) :
    (l.dropWhile p).reverse.dropWhile p = (l.dropWhile p).reverse := by
  obtain ⟨a, ha⟩ := dropWhile_sfx p l
  cases hd : (l.dropWhile p).reverse with
  | nil => simp
  | cons c t =>
    have hrev : l.reverse = c :: (t ++ a.reverse) := by
      rw [ha, List.reverse_append, hd]
      simp
    rw [hrev] at h
    have hc : p c = false := dropWhile_head_false h
    rw [List.dropWhile_cons, hc]
    simp

theorem stripChars_rev_fix (l : List Char) :
    (stripChars l).reverse.dropWhile isSpc = (stripChars l).reverse := by
  unfold stripChars
  rw [List.reverse_reverse]
  exact dropWhile_idem isSpc (l.dropWhile isSpc).reverse

theorem stripChars_left_fix (l : List Char) :
    (stripChars l).dropWhile isSpc = stripChars l := by
  unfold stripChars
  have h0 : ((l.dropWhile isSpc).reverse.reverse).dropWhile isSpc =
      (l.dropWhile isSpc).reverse.reverse := by
    rw [List.reverse_reverse]
    exact dropWhile_idem isSpc l
  exact dropWhile_rev_fix h0

theorem stripChars_of_fix {l : List Char}
    (h1 : l.dropWhile isSpc = l)
    (h2 : l.reverse.dropWhile isSpc = l.reverse) :
    stripChars l = l := by
  unfold stripChars
  rw [h1, h2, List.reverse_reverse]

theorem stripChars_idem (l : List Char) :
    stripChars (stripChars l) = stripChars l :=
  stripChars_of_fix (stripChars_left_fix l) (stripChars_rev_fix l)

theorem stripChars_part (l : List Char) :
    ∃ a b, l = a ++ stripChars l ++ b := by
  obtain ⟨a, ha⟩ := dropWhile_sfx isSpc l
  obtain ⟨a2, ha2⟩ := dropWhile_sfx isSpc (l.dropWhile isSpc).reverse
  refine ⟨a, a2.reverse, ?_⟩
  have hy : l.dropWhile isSpc = stripChars l ++ a2.reverse := by
    unfold stripChars
    calc l.dropWhile isSpc = (l.dropWhile isSpc).reverse.reverse := by
          rw [List.reverse_reverse]
      _ = (a2 ++ (l.dropWhile isSpc).reverse.dropWhile isSpc).reverse := by
          rw [← ha2]
      _ = ((l.dropWhile isSpc).reverse.dropWhile isSpc).reverse ++ a2.reverse := by
          rw [List.reverse_append]
  rw [List.append_assoc, ← hy]
  exact ha

theorem hasSub_stripChars {p l : List Char}
    (h : hasSub p (stripChars l) = true) : hasSub p l = true := by
  obtain ⟨a, b, hab⟩ := stripChars_part l
  rw [hab]
  exact hasSub_of_part h

/-! ## Lemmas about `splitOnNl` -/

theorem splitOnNl_ne_nil (cs : List Char) : splitOnNl cs ≠ [] := by
  cases cs with
  | nil => simp [splitOnNl]
  | cons c cs =>
    rw [splitOnNl]
    cases h : splitOnNl cs with
    | nil => simp
    | cons l ls =>
      by_cases hc : c == '\n' <;> simp [hc]

theorem splitOnNl_head_pre : ∀ (cs l0 : List Char) (ls : List (List Char)),
    splitOnNl cs = l0 :: ls → ∃ r, cs = l0 ++ r := by
  intro cs
  induction cs with
  | nil =>
    intro l0 ls h
    rw [splitOnNl] at h
    injection h with h1 h2
    exact ⟨[], by rw [← h1]; rfl⟩
  | cons c cs ih =>
    intro l0 ls h
    rw [splitOnNl] at h
    cases hs : splitOnNl cs with
    | nil => exact absurd hs (splitOnNl_ne_nil cs)
    | cons m ms =>
      simp only [hs] at h
      by_cases hc : c == '\n'
      · rw [if_pos hc] at h
        injection h with h1 h2
        exact ⟨c :: cs, by rw [← h1]; rfl⟩
      · rw [if_neg hc] at h
        injection h with h1 h2
        obtain ⟨r, hr⟩ := ih m ms hs
        refine ⟨r, ?_⟩
        rw [← h1, List.cons_append, ← hr]

theorem splitOnNl_mem {l : List Char} : ∀ {cs : List Char},
    l ∈ splitOnNl cs → ∃ a b, cs = a ++ l ++ b := by
  intro cs
  induction cs with
  | nil =>
    intro h
    rw [splitOnNl] at h
    simp only [List.mem_singleton] at h
    exact ⟨[], [], by simp [h]⟩
  | cons c cs ih =>
    intro h
    rw [splitOnNl] at h
    cases hs : splitOnNl cs with
    | nil => exact absurd hs (splitOnNl_ne_nil cs)
    | cons m ms =>
      simp only [hs] at h
      by_cases hc : c == '\n'
      · rw [if_pos hc] at h
        rcases List.mem_cons.mp h with h1 | h1
        · exact ⟨[], c :: cs, by simp [h1]⟩
        · obtain ⟨a, b, hab⟩ := ih (by rw [hs]; exact h1)
          exact ⟨c :: a, b, by rw [hab]; rfl⟩
      · rw [if_neg hc] at h
        rcases List.mem_cons.mp h with h1 | h1
        · obtain ⟨r, hr⟩ := splitOnNl_head_pre cs m ms hs
          refine ⟨[], r, ?_⟩
          rw [h1, List.nil_append, List.cons_append, ← hr]
        · have hmem : l ∈ splitOnNl cs := by
            rw [hs]
            exact List.mem_cons_of_mem m h1
          obtain ⟨a, b, hab⟩ := ih hmem
          exact ⟨c :: a, b, by rw [hab]; rfl⟩

theorem hasSub_line_of_text {p l cs : List Char} (hmem : l ∈ splitOnNl cs)
    (h : hasSub p l = true) : hasSub p cs = true := by
  obtain ⟨a, b, hab⟩ := splitOnNl_mem hmem
  rw [hab]
  exact hasSub_of_part h

theorem no_hasSub_strip_line {p cs : List Char} (h : hasSub p cs = false)
    (l : List Char) (hmem : l ∈ splitOnNl cs) :
    hasSub p (stripChars l) = false := by
  by_contra hcon
  rw [Bool.not_eq_false] at hcon
  rw [hasSub_line_of_text hmem (hasSub_stripChars hcon)] at h
  cases h

/-! ## The bullet branch: shape of the stored content -/

theorem bool_neg {b : Bool} (h : b = false) : ¬ b = true := by simp [h]

theorem mem_dropWhile_of {p : Char → Bool} {x : Char} {l : List Char}
    (hx : x ∈ l) (hpx : p x = false) : x ∈ l.dropWhile p := by
  induction l with
  | nil => cases hx
  | cons b bs ih =>
    rw [List.dropWhile_cons]
    by_cases hb : p b
    · simp only [hb, if_true]
      rcases List.mem_cons.mp hx with rfl | hx'
      · rw [hb] at hpx
        cases hpx
      · exact ih hx'
    · simp only [Bool.not_eq_true] at hb
      simp only [hb, Bool.false_eq_true, if_false]
      exact hx

theorem bullet_rest {raw : List Char}
    (hb : ledBy mBullet (stripChars raw) = true) :
    ∃ rest c t, stripChars raw = '-' :: ' ' :: rest ∧
      rest.reverse = c :: t ∧ isSpc c = false := by
  obtain ⟨rest, heq⟩ := ledBy_bullet_shape hb
  have hrf := stripChars_rev_fix raw
  rw [heq] at hrf
  have hrev : ('-' :: ' ' :: rest).reverse = rest.reverse ++ [' ', '-'] := by
    simp
  rw [hrev] at hrf
  cases hr : rest.reverse with
  | nil =>
    rw [hr] at hrf
    simp only [List.nil_append] at hrf
    exact absurd hrf (by decide)
  | cons c t =>
    rw [hr] at hrf
    have hrf' : ((c :: t) ++ [' ', '-']).dropWhile isSpc =
        c :: (t ++ [' ', '-']) := by simpa using hrf
    exact ⟨rest, c, t, heq, hr, dropWhile_head_false hrf'⟩

theorem strip_eq_drop_left {rest : List Char} {c : Char} {t : List Char}
    (hr : rest.reverse = c :: t) (hc : isSpc c = false) :
    stripChars rest = rest.dropWhile isSpc := by
  have h1 : rest.reverse.dropWhile isSpc = rest.reverse := by
    rw [hr, List.dropWhile_cons, hc]
    simp
  unfold stripChars
  rw [dropWhile_rev_fix h1, List.reverse_reverse]

theorem bulletContent_eq {raw : List Char}
    (hb : ledBy mBullet (stripChars raw) = true) :
    stripChars ((stripChars raw).drop 2) =
      ((stripChars raw).drop 2).dropWhile isSpc := by
  obtain ⟨rest, c, t, heq, hr, hc⟩ := bullet_rest hb
  rw [heq]
  show stripChars rest = rest.dropWhile isSpc
  exact strip_eq_drop_left hr hc

theorem bulletContent_ne_nil {raw : List Char}
    (hb : ledBy mBullet (stripChars raw) = true) :
    stripChars ((stripChars raw).drop 2) ≠ [] := by
  obtain ⟨rest, c, t, heq, hr, hc⟩ := bullet_rest hb
  rw [heq]
  show stripChars rest ≠ []
  rw [strip_eq_drop_left hr hc]
  intro hnil
  have hcmem : c ∈ rest := by
    have hcr : c ∈ rest.reverse := by
      rw [hr]
      exact List.mem_cons_self c t
    exact List.mem_reverse.mp hcr
  have hmem := mem_dropWhile_of hcmem hc
  rw [hnil] at hmem
  cases hmem

/-! ## Step lemmas: one branch of the `if/elif` chain at a time -/

theorem procStripped_marker {s : ParseState} {line : List Char} {σ : Sec}
    (h : hasSub (markerOf σ) line = true)
    (hearlier : ∀ σ' : Sec, secRank σ' < secRank σ →
      hasSub (markerOf σ') line = false) :
    procStripped s line = { s with current_section := some σ } := by
  have hne : line ≠ [] := ne_nil_of_hasSub (by cases σ <;> decide) h
  cases σ with
  | summary =>
    simp only [markerOf] at h
    unfold procStripped
    rw [if_neg hne, if_pos h]
  | highlights =>
    simp only [markerOf] at h
    have h0 : hasSub mSummary line = false := hearlier Sec.summary (by decide)
    unfold procStripped
    rw [if_neg hne, if_neg (bool_neg h0), if_pos h]
  | whatToDo =>
    simp only [markerOf] at h
    have h0 : hasSub mSummary line = false := hearlier Sec.summary (by decide)
    have h1 : hasSub mHighlights line = false := hearlier Sec.highlights (by decide)
    unfold procStripped
    rw [if_neg hne, if_neg (bool_neg h0), if_neg (bool_neg h1), if_pos h]
  | importantDates =>
    simp only [markerOf] at h
    have h0 : hasSub mSummary line = false := hearlier Sec.summary (by decide)
    have h1 : hasSub mHighlights line = false := hearlier Sec.highlights (by decide)
    have h2 : hasSub mWhatToDo line = false := hearlier Sec.whatToDo (by decide)
    unfold procStripped
    rw [if_neg hne, if_neg (bool_neg h0), if_neg (bool_neg h1),
      if_neg (bool_neg h2), if_pos h]
  | emailPrompt =>
    simp only [markerOf] at h
    have h0 : hasSub mSummary line = false := hearlier Sec.summary (by decide)
    have h1 : hasSub mHighlights line = false := hearlier Sec.highlights (by decide)
    have h2 : hasSub mWhatToDo line = false := hearlier Sec.whatToDo (by decide)
    have h3 : hasSub mImportantDates line = false :=
      hearlier Sec.importantDates (by decide)
    unfold procStripped
    rw [if_neg hne, if_neg (bool_neg h0), if_neg (bool_neg h1),
      if_neg (bool_neg h2), if_neg (bool_neg h3), if_pos h]

theorem procStripped_bullet_hl {s : ParseState} {line : List Char}
    (hb : ledBy mBullet line = true)
    (hm : ∀ σ : Sec, hasSub (markerOf σ) line = false)
    (hs : s.current_section = some Sec.highlights) :
    procStripped s line =
      { s with highlights := s.highlights ++ [stripChars (line.drop 2)] } := by
  have hne : line ≠ [] := ne_nil_of_ledBy (by decide) hb
  have h1 : hasSub mSummary line = false := hm Sec.summary
  have h2 : hasSub mHighlights line = false := hm Sec.highlights
  have h3 : hasSub mWhatToDo line = false := hm Sec.whatToDo
  have h4 : hasSub mImportantDates line = false := hm Sec.importantDates
  have h5 : hasSub mEmailPrompt line = false := hm Sec.emailPrompt
  unfold procStripped
  rw [if_neg hne, if_neg (bool_neg h1), if_neg (bool_neg h2),
    if_neg (bool_neg h3), if_neg (bool_neg h4), if_neg (bool_neg h5),
    if_pos ⟨hb, Or.inl hs⟩, if_pos hs]

theorem procStripped_bullet_td {s : ParseState} {line : List Char}
    (hb : ledBy mBullet line = true)
    (hm : ∀ σ : Sec, hasSub (markerOf σ) line = false)
    (hs : s.current_section = some Sec.whatToDo) :
    procStripped s line =
      { s with what_to_do := s.what_to_do ++ [stripChars (line.drop 2)] } := by
  have hne : line ≠ [] := ne_nil_of_ledBy (by decide) hb
  have h1 : hasSub mSummary line = false := hm Sec.summary
  have h2 : hasSub mHighlights line = false := hm Sec.highlights
  have h3 : hasSub mWhatToDo line = false := hm Sec.whatToDo
  have h4 : hasSub mImportantDates line = false := hm Sec.importantDates
  have h5 : hasSub mEmailPrompt line = false := hm Sec.emailPrompt
  unfold procStripped
  rw [if_neg hne, if_neg (bool_neg h1), if_neg (bool_neg h2),
    if_neg (bool_neg h3), if_neg (bool_neg h4), if_neg (bool_neg h5),
    if_pos ⟨hb, Or.inr (Or.inl hs)⟩, if_neg (by simp [hs]), if_pos hs]

theorem procStripped_bullet_id {s : ParseState} {line : List Char}
    (hb : ledBy mBullet line = true)
    (hm : ∀ σ : Sec, hasSub (markerOf σ) line = false)
    (hs : s.current_section = some Sec.importantDates) :
    procStripped s line =
      { s with important_dates :=
          s.important_dates ++ [stripChars (line.drop 2)] } := by
  have hne : line ≠ [] := ne_nil_of_ledBy (by decide) hb
  have h1 : hasSub mSummary line = false := hm Sec.summary
  have h2 : hasSub mHighlights line = false := hm Sec.highlights
  have h3 : hasSub mWhatToDo line = false := hm Sec.whatToDo
  have h4 : hasSub mImportantDates line = false := hm Sec.importantDates
  have h5 : hasSub mEmailPrompt line = false := hm Sec.emailPrompt
  unfold procStripped
  rw [if_neg hne, if_neg (bool_neg h1), if_neg (bool_neg h2),
    if_neg (bool_neg h3), if_neg (bool_neg h4), if_neg (bool_neg h5),
    if_pos ⟨hb, Or.inr (Or.inr hs)⟩, if_neg (by simp [hs]),
    if_neg (by simp [hs]), if_pos hs]

theorem procStripped_summary_line {s : ParseState} {line : List Char}
    (hsec : s.current_section = some Sec.summary) (hne : line ≠ [])
    (hm : ∀ σ : Sec, hasSub (markerOf σ) line = false)
    (hstar : ledBy mBold line = false) :
    procStripped s line = { s with summary := line } := by
  have h1 : hasSub mSummary line = false := hm Sec.summary
  have h2 : hasSub mHighlights line = false := hm Sec.highlights
  have h3 : hasSub mWhatToDo line = false := hm Sec.whatToDo
  have h4 : hasSub mImportantDates line = false := hm Sec.importantDates
  have h5 : hasSub mEmailPrompt line = false := hm Sec.emailPrompt
  unfold procStripped
  rw [if_neg hne, if_neg (bool_neg h1), if_neg (bool_neg h2),
    if_neg (bool_neg h3), if_neg (bool_neg h4), if_neg (bool_neg h5),
    if_neg (by simp [hsec]), if_pos ⟨hsec, hne, hstar⟩]

theorem procStripped_email_line {s : ParseState} {line : List Char}
    (hsec : s.current_section = some Sec.emailPrompt) (hne : line ≠ [])
    (hm : ∀ σ : Sec, hasSub (markerOf σ) line = false)
    (hstar : ledBy mBold line = false) :
    procStripped s line = { s with email_prompt := some line } := by
  have h1 : hasSub mSummary line = false := hm Sec.summary
  have h2 : hasSub mHighlights line = false := hm Sec.highlights
  have h3 : hasSub mWhatToDo line = false := hm Sec.whatToDo
  have h4 : hasSub mImportantDates line = false := hm Sec.importantDates
  have h5 : hasSub mEmailPrompt line = false := hm Sec.emailPrompt
  unfold procStripped
  rw [if_neg hne, if_neg (bool_neg h1), if_neg (bool_neg h2),
    if_neg (bool_neg h3), if_neg (bool_neg h4), if_neg (bool_neg h5),
    if_neg (by simp [hsec]), if_neg (by simp [hsec]),
    if_pos ⟨hsec, hne, hstar⟩]

theorem procStripped_no_action {s : ParseState} {line : List Char}
    (hm : ∀ σ : Sec, hasSub (markerOf σ) line = false)
    (hsec : s.current_section = none) :
    procStripped s line = s := by
  by_cases hne : line = []
  · unfold procStripped
    rw [if_pos hne]
  · have h1 : hasSub mSummary line = false := hm Sec.summary
    have h2 : hasSub mHighlights line = false := hm Sec.highlights
    have h3 : hasSub mWhatToDo line = false := hm Sec.whatToDo
    have h4 : hasSub mImportantDates line = false := hm Sec.importantDates
    have h5 : hasSub mEmailPrompt line = false := hm Sec.emailPrompt
    unfold procStripped
    rw [if_neg hne, if_neg (bool_neg h1), if_neg (bool_neg h2),
      if_neg (bool_neg h3), if_neg (bool_neg h4), if_neg (bool_neg h5),
      if_neg (by simp [hsec]), if_neg (by simp [hsec]),
      if_neg (by simp [hsec])]

/-! ## Exhaustive case analysis of one loop iteration -/

theorem procStripped_cases (s : ParseState) (line : List Char) :
    procStripped s line = s ∨
    (∃ σ, hasSub (markerOf σ) line = true ∧
      procStripped s line = { s with current_section := some σ }) ∨
    (ledBy mBullet line = true ∧ s.current_section = some Sec.highlights ∧
      procStripped s line =
        { s with highlights := s.highlights ++ [stripChars (line.drop 2)] }) ∨
    (ledBy mBullet line = true ∧ s.current_section = some Sec.whatToDo ∧
      procStripped s line =
        { s with what_to_do := s.what_to_do ++ [stripChars (line.drop 2)] }) ∨
    (ledBy mBullet line = true ∧ s.current_section = some Sec.importantDates ∧
      procStripped s line =
        { s with important_dates :=
            s.important_dates ++ [stripChars (line.drop 2)] }) ∨
    (s.current_section = some Sec.summary ∧ line ≠ [] ∧
      procStripped s line = { s with summary := line }) ∨
    (s.current_section = some Sec.emailPrompt ∧ line ≠ [] ∧
      procStripped s line = { s with email_prompt := some line }) := by
  by_cases c1 : line = []
  · exact Or.inl (by unfold procStripped; rw [if_pos c1])
  by_cases c2 : hasSub mSummary line = true
  · exact Or.inr (Or.inl ⟨Sec.summary, c2, by
      unfold procStripped; rw [if_neg c1, if_pos c2]⟩)
  by_cases c3 : hasSub mHighlights line = true
  · exact Or.inr (Or.inl ⟨Sec.highlights, c3, by
      unfold procStripped; rw [if_neg c1, if_neg c2, if_pos c3]⟩)
  by_cases c4 : hasSub mWhatToDo line = true
  · exact Or.inr (Or.inl ⟨Sec.whatToDo, c4, by
      unfold procStripped; rw [if_neg c1, if_neg c2, if_neg c3, if_pos c4]⟩)
  by_cases c5 : hasSub mImportantDates line = true
  · exact Or.inr (Or.inl ⟨Sec.importantDates, c5, by
      unfold procStripped
      rw [if_neg c1, if_neg c2, if_neg c3, if_neg c4, if_pos c5]⟩)
  by_cases c6 : hasSub mEmailPrompt line = true
  · exact Or.inr (Or.inl ⟨Sec.emailPrompt, c6, by
      unfold procStripped
      rw [if_neg c1, if_neg c2, if_neg c3, if_neg c4, if_neg c5, if_pos c6]⟩)
  cases hsec : s.current_section with
  | none =>
    refine Or.inl ?_
    unfold procStripped
    rw [if_neg c1, if_neg c2, if_neg c3, if_neg c4, if_neg c5, if_neg c6,
      if_neg (by simp [hsec]), if_neg (by simp [hsec]), if_neg (by simp [hsec])]
  | some σ =>
    cases σ with
    | summary =>
      by_cases hstar : ledBy mBold line = true
      · refine Or.inl ?_
        unfold procStripped
        rw [if_neg c1, if_neg c2, if_neg c3, if_neg c4, if_neg c5, if_neg c6,
          if_neg (by simp [hsec]), if_neg (by simp [hstar]),
          if_neg (by simp [hsec])]
      · have hstar' : ledBy mBold line = false := by simpa using hstar
        refine Or.inr (Or.inr (Or.inr (Or.inr (Or.inr (Or.inl
          ⟨rfl, c1, ?_⟩)))))
        unfold procStripped
        rw [if_neg c1, if_neg c2, if_neg c3, if_neg c4, if_neg c5, if_neg c6,
          if_neg (by simp [hsec]), if_pos ⟨hsec, c1, hstar'⟩, hsec]
    | highlights =>
      by_cases hbul : ledBy mBullet line = true
      · refine Or.inr (Or.inr (Or.inl ⟨hbul, rfl, ?_⟩))
        unfold procStripped
        rw [if_neg c1, if_neg c2, if_neg c3, if_neg c4, if_neg c5, if_neg c6,
          if_pos ⟨hbul, Or.inl hsec⟩, if_pos hsec, hsec]
      · refine Or.inl ?_
        unfold procStripped
        rw [if_neg c1, if_neg c2, if_neg c3, if_neg c4, if_neg c5, if_neg c6,
          if_neg (fun hc => hbul hc.1), if_neg (by simp [hsec]),
          if_neg (by simp [hsec])]
    | whatToDo =>
      by_cases hbul : ledBy mBullet line = true
      · refine Or.inr (Or.inr (Or.inr (Or.inl ⟨hbul, rfl, ?_⟩)))
        unfold procStripped
        rw [if_neg c1, if_neg c2, if_neg c3, if_neg c4, if_neg c5, if_neg c6,
          if_pos ⟨hbul, Or.inr (Or.inl hsec)⟩, if_neg (by simp [hsec]),
          if_pos hsec, hsec]
      · refine Or.inl ?_
        unfold procStripped
        rw [if_neg c1, if_neg c2, if_neg c3, if_neg c4, if_neg c5, if_neg c6,
          if_neg (fun hc => hbul hc.1), if_neg (by simp [hsec]),
          if_neg (by simp [hsec])]
    | importantDates =>
      by_cases hbul : ledBy mBullet line = true
      · refine Or.inr (Or.inr (Or.inr (Or.inr (Or.inl ⟨hbul, rfl, ?_⟩))))
        unfold procStripped
        rw [if_neg c1, if_neg c2, if_neg c3, if_neg c4, if_neg c5, if_neg c6,
          if_pos ⟨hbul, Or.inr (Or.inr hsec)⟩, if_neg (by simp [hsec]),
          if_neg (by simp [hsec]), if_pos hsec, hsec]
      · refine Or.inl ?_
        unfold procStripped
        rw [if_neg c1, if_neg c2, if_neg c3, if_neg c4, if_neg c5, if_neg c6,
          if_neg (fun hc => hbul hc.1), if_neg (by simp [hsec]),
          if_neg (by simp [hsec])]
    | emailPrompt =>
      by_cases hstar : ledBy mBold line = true
      · refine Or.inl ?_
        unfold procStripped
        rw [if_neg c1, if_neg c2, if_neg c3, if_neg c4, if_neg c5, if_neg c6,
          if_neg (by simp [hsec]), if_neg (by simp [hstar]),
          if_neg (by simp [hstar])]
      · have hstar' : ledBy mBold line = false := by simpa using hstar
        refine Or.inr (Or.inr (Or.inr (Or.inr (Or.inr (Or.inr
          ⟨rfl, c1, ?_⟩)))))
        unfold procStripped
        rw [if_neg c1, if_neg c2, if_neg c3, if_neg c4, if_neg c5, if_neg c6,
          if_neg (by simp [hsec]), if_neg (by simp [hsec]),
          if_pos ⟨hsec, c1, hstar'⟩, hsec]

/-! ## Preservation: a field keeps its value while its marker is absent -/

theorem step_keep_summary {s : ParseState} {raw : List Char}
    (h : hasSub mSummary (stripChars raw) = false)
    (hs : s.current_section ≠ some Sec.summary) :
    (processLine s raw).current_section ≠ some Sec.summary ∧
      (processLine s raw).summary = s.summary := by
  unfold processLine
  rcases procStripped_cases s (stripChars raw) with
    h0 | ⟨σ, hσ, heq⟩ | ⟨hb, hsec, heq⟩ | ⟨hb, hsec, heq⟩ | ⟨hb, hsec, heq⟩ |
    ⟨hsec, hne, heq⟩ | ⟨hsec, hne, heq⟩
  · rw [h0]
    exact ⟨hs, rfl⟩
  · rw [heq]
    refine ⟨?_, rfl⟩
    intro hcon
    have hσs : σ = Sec.summary := by simpa using hcon
    subst hσs
    simp only [markerOf] at hσ
    rw [h] at hσ
    cases hσ
  · rw [heq]
    exact ⟨hs, rfl⟩
  · rw [heq]
    exact ⟨hs, rfl⟩
  · rw [heq]
    exact ⟨hs, rfl⟩
  · exact absurd hsec hs
  · rw [heq]
    exact ⟨hs, rfl⟩

theorem step_keep_hl {s : ParseState} {raw : List Char}
    (h : hasSub mHighlights (stripChars raw) = false)
    (hs : s.current_section ≠ some Sec.highlights) :
    (processLine s raw).current_section ≠ some Sec.highlights ∧
      (processLine s raw).highlights = s.highlights := by
  unfold processLine
  rcases procStripped_cases s (stripChars raw) with
    h0 | ⟨σ, hσ, heq⟩ | ⟨hb, hsec, heq⟩ | ⟨hb, hsec, heq⟩ | ⟨hb, hsec, heq⟩ |
    ⟨hsec, hne, heq⟩ | ⟨hsec, hne, heq⟩
  · rw [h0]
    exact ⟨hs, rfl⟩
  · rw [heq]
    refine ⟨?_, rfl⟩
    intro hcon
    have hσs : σ = Sec.highlights := by simpa using hcon
    subst hσs
    simp only [markerOf] at hσ
    rw [h] at hσ
    cases hσ
  · exact absurd hsec hs
  · rw [heq]
    exact ⟨hs, rfl⟩
  · rw [heq]
    exact ⟨hs, rfl⟩
  · rw [heq]
    exact ⟨hs, rfl⟩
  · rw [heq]
    exact ⟨hs, rfl⟩

theorem step_keep_td {s : ParseState} {raw : List Char}
    (h : hasSub mWhatToDo (stripChars raw) = false)
    (hs : s.current_section ≠ some Sec.whatToDo) :
    (processLine s raw).current_section ≠ some Sec.whatToDo ∧
      (processLine s raw).what_to_do = s.what_to_do := by
  unfold processLine
  rcases procStripped_cases s (stripChars raw) with
    h0 | ⟨σ, hσ, heq⟩ | ⟨hb, hsec, heq⟩ | ⟨hb, hsec, heq⟩ | ⟨hb, hsec, heq⟩ |
    ⟨hsec, hne, heq⟩ | ⟨hsec, hne, heq⟩
  · rw [h0]
    exact ⟨hs, rfl⟩
  · rw [heq]
    refine ⟨?_, rfl⟩
    intro hcon
    have hσs : σ = Sec.whatToDo := by simpa using hcon
    subst hσs
    simp only [markerOf] at hσ
    rw [h] at hσ
    cases hσ
  · rw [heq]
    exact ⟨hs, rfl⟩
  · exact absurd hsec hs
  · rw [heq]
    exact ⟨hs, rfl⟩
  · rw [heq]
    exact ⟨hs, rfl⟩
  · rw [heq]
    exact ⟨hs, rfl⟩

theorem step_keep_id {s : ParseState} {raw : List Char}
    (h : hasSub mImportantDates (stripChars raw) = false)
    (hs : s.current_section ≠ some Sec.importantDates) :
    (processLine s raw).current_section ≠ some Sec.importantDates ∧
      (processLine s raw).important_dates = s.important_dates := by
  unfold processLine
  rcases procStripped_cases s (stripChars raw) with
    h0 | ⟨σ, hσ, heq⟩ | ⟨hb, hsec, heq⟩ | ⟨hb, hsec, heq⟩ | ⟨hb, hsec, heq⟩ |
    ⟨hsec, hne, heq⟩ | ⟨hsec, hne, heq⟩
  · rw [h0]
    exact ⟨hs, rfl⟩
  · rw [heq]
    refine ⟨?_, rfl⟩
    intro hcon
    have hσs : σ = Sec.importantDates := by simpa using hcon
    subst hσs
    simp only [markerOf] at hσ
    rw [h] at hσ
    cases hσ
  · rw [heq]
    exact ⟨hs, rfl⟩
  · rw [heq]
    exact ⟨hs, rfl⟩
  · exact absurd hsec hs
  · rw [heq]
    exact ⟨hs, rfl⟩
  · rw [heq]
    exact ⟨hs, rfl⟩

theorem step_keep_email {s : ParseState} {raw : List Char}
    (h : hasSub mEmailPrompt (stripChars raw) = false)
    (hs : s.current_section ≠ some Sec.emailPrompt) :
    (processLine s raw).current_section ≠ some Sec.emailPrompt ∧
      (processLine s raw).email_prompt = s.email_prompt := by
  unfold processLine
  rcases procStripped_cases s (stripChars raw) with
    h0 | ⟨σ, hσ, heq⟩ | ⟨hb, hsec, heq⟩ | ⟨hb, hsec, heq⟩ | ⟨hb, hsec, heq⟩ |
    ⟨hsec, hne, heq⟩ | ⟨hsec, hne, heq⟩
  · rw [h0]
    exact ⟨hs, rfl⟩
  · rw [heq]
    refine ⟨?_, rfl⟩
    intro hcon
    have hσs : σ = Sec.emailPrompt := by simpa using hcon
    subst hσs
    simp only [markerOf] at hσ
    rw [h] at hσ
    cases hσ
  · rw [heq]
    exact ⟨hs, rfl⟩
  · rw [heq]
    exact ⟨hs, rfl⟩
  · rw [heq]
    exact ⟨hs, rfl⟩
  · rw [heq]
    exact ⟨hs, rfl⟩
  · exact absurd hsec hs

theorem fold_keep_summary : ∀ {ls : List (List Char)} {s : ParseState},
    (∀ raw ∈ ls, hasSub mSummary (stripChars raw) = false) →
    s.current_section ≠ some Sec.summary →
    (ls.foldl processLine s).current_section ≠ some Sec.summary ∧
      (ls.foldl processLine s).summary = s.summary := by
  intro ls
  induction ls with
  | nil => exact fun h hs => ⟨hs, rfl⟩
  | cons raw rest ih =>
    intro s h hs
    have hstep := step_keep_summary (h raw (List.mem_cons_self raw rest)) hs
    rw [List.foldl_cons]
    have ih' := ih (fun r hr => h r (List.mem_cons_of_mem raw hr)) hstep.1
    exact ⟨ih'.1, ih'.2.trans hstep.2⟩

theorem fold_keep_hl : ∀ {ls : List (List Char)} {s : ParseState},
    (∀ raw ∈ ls, hasSub mHighlights (stripChars raw) = false) →
    s.current_section ≠ some Sec.highlights →
    (ls.foldl processLine s).current_section ≠ some Sec.highlights ∧
      (ls.foldl processLine s).highlights = s.highlights := by
  intro ls
  induction ls with
  | nil => exact fun h hs => ⟨hs, rfl⟩
  | cons raw rest ih =>
    intro s h hs
    have hstep := step_keep_hl (h raw (List.mem_cons_self raw rest)) hs
    rw [List.foldl_cons]
    have ih' := ih (fun r hr => h r (List.mem_cons_of_mem raw hr)) hstep.1
    exact ⟨ih'.1, ih'.2.trans hstep.2⟩

theorem fold_keep_td : ∀ {ls : List (List Char)} {s : ParseState},
    (∀ raw ∈ ls, hasSub mWhatToDo (stripChars raw) = false) →
    s.current_section ≠ some Sec.whatToDo →
    (ls.foldl processLine s).current_section ≠ some Sec.whatToDo ∧
      (ls.foldl processLine s).what_to_do = s.what_to_do := by
  intro ls
  induction ls with
  | nil => exact fun h hs => ⟨hs, rfl⟩
  | cons raw rest ih =>
    intro s h hs
    have hstep := step_keep_td (h raw (List.mem_cons_self raw rest)) hs
    rw [List.foldl_cons]
    have ih' := ih (fun r hr => h r (List.mem_cons_of_mem raw hr)) hstep.1
    exact ⟨ih'.1, ih'.2.trans hstep.2⟩

theorem fold_keep_id : ∀ {ls : List (List Char)} {s : ParseState},
    (∀ raw ∈ ls, hasSub mImportantDates (stripChars raw) = false) →
    s.current_section ≠ some Sec.importantDates →
    (ls.foldl processLine s).current_section ≠ some Sec.importantDates ∧
      (ls.foldl processLine s).important_dates = s.important_dates := by
  intro ls
  induction ls with
  | nil => exact fun h hs => ⟨hs, rfl⟩
  | cons raw rest ih =>
    intro s h hs
    have hstep := step_keep_id (h raw (List.mem_cons_self raw rest)) hs
    rw [List.foldl_cons]
    have ih' := ih (fun r hr => h r (List.mem_cons_of_mem raw hr)) hstep.1
    exact ⟨ih'.1, ih'.2.trans hstep.2⟩

theorem fold_keep_email : ∀ {ls : List (List Char)} {s : ParseState},
    (∀ raw ∈ ls, hasSub mEmailPrompt (stripChars raw) = false) →
    s.current_section ≠ some Sec.emailPrompt →
    (ls.foldl processLine s).current_section ≠ some Sec.emailPrompt ∧
      (ls.foldl processLine s).email_prompt = s.email_prompt := by
  intro ls
  induction ls with
  | nil => exact fun h hs => ⟨hs, rfl⟩
  | cons raw rest ih =>
    intro s h hs
    have hstep := step_keep_email (h raw (List.mem_cons_self raw rest)) hs
    rw [List.foldl_cons]
    have ih' := ih (fun r hr => h r (List.mem_cons_of_mem raw hr)) hstep.1
    exact ⟨ih'.1, ih'.2.trans hstep.2⟩

/-! ## Stored strings are non-empty and trimmed -/

/-- A stored string is non-empty and unchanged by stripping. -/
def goodStr (x : List Char) : Prop := x ≠ [] ∧ stripChars x = x

/-- Invariant: every string already stored in the state is `goodStr`. -/
structure GoodState (s : ParseState) : Prop where
  sum : s.summary ≠ [] → goodStr s.summary
  hl : ∀ x ∈ s.highlights, goodStr x
  td : ∀ x ∈ s.what_to_do, goodStr x
  dates : ∀ x ∈ s.important_dates, goodStr x
  email : ∀ x, s.email_prompt = some x → goodStr x

theorem goodStr_bullet {raw : List Char}
    (hb : ledBy mBullet (stripChars raw) = true) :
    goodStr (stripChars ((stripChars raw).drop 2)) :=
  ⟨bulletContent_ne_nil hb, stripChars_idem _⟩

theorem goodStr_strip {raw : List Char} (hne : stripChars raw ≠ []) :
    goodStr (stripChars raw) :=
  ⟨hne, stripChars_idem raw⟩

theorem step_good {s : ParseState} {raw : List Char} (hG : GoodState s) :
    GoodState (processLine s raw) := by
  unfold processLine
  rcases procStripped_cases s (stripChars raw) with
    h0 | ⟨σ, hσ, heq⟩ | ⟨hb, hsec, heq⟩ | ⟨hb, hsec, heq⟩ | ⟨hb, hsec, heq⟩ |
    ⟨hsec, hne, heq⟩ | ⟨hsec, hne, heq⟩
  · rw [h0]
    exact hG
  · rw [heq]
    exact { sum := hG.sum, hl := hG.hl, td := hG.td, dates := hG.dates,
            email := hG.email }
  · rw [heq]
    refine { sum := hG.sum, hl := ?_, td := hG.td, dates := hG.dates,
             email := hG.email }
    intro x hx
    rcases List.mem_append.mp hx with hx | hx
    · exact hG.hl x hx
    · rw [List.mem_singleton] at hx
      subst hx
      exact goodStr_bullet hb
  · rw [heq]
    refine { sum := hG.sum, hl := hG.hl, td := ?_, dates := hG.dates,
             email := hG.email }
    intro x hx
    rcases List.mem_append.mp hx with hx | hx
    · exact hG.td x hx
    · rw [List.mem_singleton] at hx
      subst hx
      exact goodStr_bullet hb
  · rw [heq]
    refine { sum := hG.sum, hl := hG.hl, td := hG.td, dates := ?_,
             email := hG.email }
    intro x hx
    rcases List.mem_append.mp hx with hx | hx
    · exact hG.dates x hx
    · rw [List.mem_singleton] at hx
      subst hx
      exact goodStr_bullet hb
  · rw [heq]
    refine { sum := ?_, hl := hG.hl, td := hG.td, dates := hG.dates,
             email := hG.email }
    intro _
    exact goodStr_strip hne
  · rw [heq]
    refine { sum := hG.sum, hl := hG.hl, td := hG.td, dates := hG.dates,
             email := ?_ }
    intro x hx
    injection hx with hx
    subst hx
    exact goodStr_strip hne

theorem fold_good : ∀ {ls : List (List Char)} {s : ParseState},
    GoodState s → GoodState (ls.foldl processLine s) := by
  intro ls
  induction ls with
  | nil => exact fun hG => hG
  | cons raw rest ih =>
    intro s hG
    rw [List.foldl_cons]
    exact ih (step_good hG)

theorem good_init : GoodState initState := by
  refine { sum := ?_, hl := ?_, td := ?_, dates := ?_, email := ?_ }
  · intro h
    exact absurd rfl h
  · intro x hx
    cases hx
  · intro x hx
    cases hx
  · intro x hx
    cases hx
  · intro x hx
    cases hx

/-! ## Claim theorems -/

/-- State with the current section set to Summary, used in witnesses. -/
def sumState : ParseState := { initState with current_section := some Sec.summary }

/-- State with the current section set to Email Prompt, used in witnesses. -/
def emailState : ParseState :=
  { initState with current_section := some Sec.emailPrompt }

/-- Claim C1, counterexample: a bullet line while the current section is
Summary (resp. Email Prompt) is NOT ignored — it is stored as the summary
(resp. the email prompt), `"- "` prefix included. -/
theorem c1_counterexample :
    (parse_ai_response "**Summary:**\n- hello").summary = "- hello".data ∧
    (parse_ai_response "**Summary:**").summary = [] ∧
    (parse_ai_response "**Email Prompt:**\n- world").email_prompt =
      some "- world".data := by
  decide

/-- Claim C1, amended: a marker-free line beginning with `"- "` (after
stripping) is ignored only when no section is current; when the current
section is Summary (resp. Email Prompt) the stripped line, `"- "` prefix
intact, overwrites the summary (resp. email prompt). -/
theorem c1_amended :
    (∀ (s : ParseState) (raw : List Char),
      ledBy mBullet (stripChars raw) = true →
      (∀ σ : Sec, hasSub (markerOf σ) (stripChars raw) = false) →
      s.current_section = none →
      processLine s raw = s) ∧
    (∀ (s : ParseState) (raw : List Char),
      ledBy mBullet (stripChars raw) = true →
      (∀ σ : Sec, hasSub (markerOf σ) (stripChars raw) = false) →
      s.current_section = some Sec.summary →
      processLine s raw = { s with summary := stripChars raw }) ∧
    (∀ (s : ParseState) (raw : List Char),
      ledBy mBullet (stripChars raw) = true →
      (∀ σ : Sec, hasSub (markerOf σ) (stripChars raw) = false) →
      s.current_section = some Sec.emailPrompt →
      processLine s raw = { s with email_prompt := some (stripChars raw) }) := by
  refine ⟨?_, ?_, ?_⟩
  · intro s raw hb hm hsec
    exact procStripped_no_action hm hsec
  · intro s raw hb hm hsec
    exact procStripped_summary_line hsec (ne_nil_of_ledBy (by decide) hb) hm
      (ledBy_bold_of_bullet hb)
  · intro s raw hb hm hsec
    exact procStripped_email_line hsec (ne_nil_of_ledBy (by decide) hb) hm
      (ledBy_bold_of_bullet hb)

/-- Claim C1, witness for the amended statement at concrete inputs. -/
theorem c1_witness :
    processLine initState "- stray".data = initState ∧
    processLine sumState "- taken".data =
      { sumState with summary := "- taken".data } ∧
    processLine emailState "- reply".data =
      { emailState with email_prompt := some "- reply".data } := by
  refine ⟨?_, ?_, ?_⟩
  · exact c1_amended.1 initState "- stray".data (by decide)
      (fun σ => by cases σ <;> decide) rfl
  · exact c1_amended.2.1 sumState "- taken".data (by decide)
      (fun σ => by cases σ <;> decide) rfl
  · exact c1_amended.2.2 emailState "- reply".data (by decide)
      (fun σ => by cases σ <;> decide) rfl

/-- Claim C2: the parser is a total function — for every input text it
returns an `AnalysisResponse` record, whose `email_prompt` is either
absent or a string; it can never fail. -/
theorem c2_parser_total (text : String) :
    ∃ r : AnalysisResponse, parse_ai_response text = r ∧
      (r.email_prompt = none ∨ ∃ p, r.email_prompt = some p) := by
  refine ⟨parse_ai_response text, rfl, ?_⟩
  cases h : (parse_ai_response text).email_prompt with
  | none => exact Or.inl rfl
  | some p => exact Or.inr ⟨p, rfl⟩

/-- Claim C3: a line whose stripped form contains a header marker switches
the current section to a contained marker's section and is never itself
stored in any field; when the line contains exactly one marker, the
section switched to is exactly that marker's section. -/
theorem c3_header_switch :
    (∀ (s : ParseState) (raw : List Char),
      (∃ σ : Sec, hasSub (markerOf σ) (stripChars raw) = true) →
      ∃ σ : Sec, hasSub (markerOf σ) (stripChars raw) = true ∧
        processLine s raw = { s with current_section := some σ }) ∧
    (∀ (s : ParseState) (raw : List Char) (σ : Sec),
      hasSub (markerOf σ) (stripChars raw) = true →
      (∀ σ' : Sec, σ' ≠ σ → hasSub (markerOf σ') (stripChars raw) = false) →
      processLine s raw = { s with current_section := some σ }) := by
  constructor
  · rintro s raw ⟨σ0, hσ0⟩
    by_cases h1 : hasSub mSummary (stripChars raw) = true
    · exact ⟨Sec.summary, h1, procStripped_marker h1
        (fun σ' h' => absurd h' (Nat.not_lt_zero _))⟩
    by_cases h2 : hasSub mHighlights (stripChars raw) = true
    · refine ⟨Sec.highlights, h2, procStripped_marker h2 ?_⟩
      intro σ' h'
      cases σ' with
      | summary => simpa using h1
      | highlights => exact absurd h' (by decide)
      | whatToDo => exact absurd h' (by decide)
      | importantDates => exact absurd h' (by decide)
      | emailPrompt => exact absurd h' (by decide)
    by_cases h3 : hasSub mWhatToDo (stripChars raw) = true
    · refine ⟨Sec.whatToDo, h3, procStripped_marker h3 ?_⟩
      intro σ' h'
      cases σ' with
      | summary => simpa using h1
      | highlights => simpa using h2
      | whatToDo => exact absurd h' (by decide)
      | importantDates => exact absurd h' (by decide)
      | emailPrompt => exact absurd h' (by decide)
    by_cases h4 : hasSub mImportantDates (stripChars raw) = true
    · refine ⟨Sec.importantDates, h4, procStripped_marker h4 ?_⟩
      intro σ' h'
      cases σ' with
      | summary => simpa using h1
      | highlights => simpa using h2
      | whatToDo => simpa using h3
      | importantDates => exact absurd h' (by decide)
      | emailPrompt => exact absurd h' (by decide)
    by_cases h5 : hasSub mEmailPrompt (stripChars raw) = true
    · refine ⟨Sec.emailPrompt, h5, procStripped_marker h5 ?_⟩
      intro σ' h'
      cases σ' with
      | summary => simpa using h1
      | highlights => simpa using h2
      | whatToDo => simpa using h3
      | importantDates => simpa using h4
      | emailPrompt => exact absurd h' (by decide)
    · exfalso
      cases σ0 with
      | summary => exact h1 hσ0
      | highlights => exact h2 hσ0
      | whatToDo => exact h3 hσ0
      | importantDates => exact h4 hσ0
      | emailPrompt => exact h5 hσ0
  · intro s raw σ h hall
    exact procStripped_marker h
      (fun σ' h' => hall σ' (fun heq => Nat.lt_irrefl _ (heq ▸ h')))

/-- Claim C3, witness: a header line with surrounding whitespace and
trailing content switches the section and stores nothing. -/
theorem c3_witness :
    processLine initState "  **Highlights:** trailing content".data =
      { initState with current_section := some Sec.highlights } :=
  c3_header_switch.2 initState "  **Highlights:** trailing content".data
    Sec.highlights (by decide) (by intro σ'; cases σ' <;> decide)

/-- Claim C4: in the Summary (resp. Email Prompt) section, each qualifying
line overwrites the field with its stripped content, so the last such line
wins; `"**Summary:**\nLine A\nLine B"` yields summary `"Line B"`. -/
theorem c4_last_line_wins :
    (∀ (s : ParseState) (raw : List Char),
      s.current_section = some Sec.summary →
      stripChars raw ≠ [] →
      (∀ σ : Sec, hasSub (markerOf σ) (stripChars raw) = false) →
      ledBy mBold (stripChars raw) = false →
      processLine s raw = { s with summary := stripChars raw }) ∧
    (∀ (s : ParseState) (raw : List Char),
      s.current_section = some Sec.emailPrompt →
      stripChars raw ≠ [] →
      (∀ σ : Sec, hasSub (markerOf σ) (stripChars raw) = false) →
      ledBy mBold (stripChars raw) = false →
      processLine s raw = { s with email_prompt := some (stripChars raw) }) ∧
    (parse_ai_response "**Summary:**\nLine A\nLine B").summary = "Line B".data ∧
    (parse_ai_response "**Email Prompt:**\nFirst\nSecond").email_prompt =
      some "Second".data :=
  ⟨fun _ _ hsec hne hm hstar => procStripped_summary_line hsec hne hm hstar,
   fun _ _ hsec hne hm hstar => procStripped_email_line hsec hne hm hstar,
   by decide, by decide⟩

/-- Claim C4, witness at concrete states and lines. -/
theorem c4_witness :
    processLine sumState "Line B".data =
      { sumState with summary := "Line B".data } ∧
    processLine emailState "Reply here".data =
      { emailState with email_prompt := some "Reply here".data } := by
  constructor
  · exact c4_last_line_wins.1 sumState "Line B".data rfl (by decide)
      (fun σ => by cases σ <;> decide) (by decide)
  · exact c4_last_line_wins.2.1 emailState "Reply here".data rfl (by decide)
      (fun σ => by cases σ <;> decide) (by decide)

/-- Claim C5: a marker-free line whose stripped form begins with `"- "`,
seen while the current section is Highlights, What To Do or Important
Dates, appends to that section's list exactly the remainder of the
stripped line after the two-character marker with its leading whitespace
removed (and nothing else changes), preserving order; the concrete
example from the spec evaluates as claimed. -/
theorem c5_bullet_append :
    (∀ (s : ParseState) (raw : List Char),
      s.current_section = some Sec.highlights →
      ledBy mBullet (stripChars raw) = true →
      (∀ σ : Sec, hasSub (markerOf σ) (stripChars raw) = false) →
      processLine s raw = { s with highlights :=
        s.highlights ++ [((stripChars raw).drop 2).dropWhile isSpc] }) ∧
    (∀ (s : ParseState) (raw : List Char),
      s.current_section = some Sec.whatToDo →
      ledBy mBullet (stripChars raw) = true →
      (∀ σ : Sec, hasSub (markerOf σ) (stripChars raw) = false) →
      processLine s raw = { s with what_to_do :=
        s.what_to_do ++ [((stripChars raw).drop 2).dropWhile isSpc] }) ∧
    (∀ (s : ParseState) (raw : List Char),
      s.current_section = some Sec.importantDates →
      ledBy mBullet (stripChars raw) = true →
      (∀ σ : Sec, hasSub (markerOf σ) (stripChars raw) = false) →
      processLine s raw = { s with important_dates :=
        s.important_dates ++ [((stripChars raw).drop 2).dropWhile isSpc] }) ∧
    parse_ai_response "**Highlights:**\n- A\n- B\n**What To Do:**\n- C" =
      { summary := [], highlights := ["A".data, "B".data],
        what_to_do := ["C".data], important_dates := [],
        email_prompt := none } := by
  refine ⟨?_, ?_, ?_, by decide⟩
  · intro s raw hsec hb hm
    have h := procStripped_bullet_hl hb hm hsec
    rw [bulletContent_eq hb] at h
    exact h
  · intro s raw hsec hb hm
    have h := procStripped_bullet_td hb hm hsec
    rw [bulletContent_eq hb] at h
    exact h
  · intro s raw hsec hb hm
    have h := procStripped_bullet_id hb hm hsec
    rw [bulletContent_eq hb] at h
    exact h

/-- Claim C5, witness at concrete states and bullet lines. -/
theorem c5_witness :
    processLine { initState with current_section := some Sec.highlights }
        "-   spaced fact".data =
      { initState with
          current_section := some Sec.highlights
          highlights := ["spaced fact".data] } ∧
    processLine { initState with current_section := some Sec.whatToDo }
        "- call back".data =
      { initState with
          current_section := some Sec.whatToDo
          what_to_do := ["call back".data] } ∧
    processLine { initState with current_section := some Sec.importantDates }
        "- 2024-01-01: Due date".data =
      { initState with
          current_section := some Sec.importantDates
          important_dates := ["2024-01-01: Due date".data] } := by
  refine ⟨?_, ?_, ?_⟩
  · exact c5_bullet_append.1 _ "-   spaced fact".data rfl (by decide)
      (fun σ => by cases σ <;> decide)
  · exact c5_bullet_append.2.1 _ "- call back".data rfl (by decide)
      (fun σ => by cases σ <;> decide)
  · exact c5_bullet_append.2.2.1 _ "- 2024-01-01: Due date".data rfl (by decide)
      (fun σ => by cases σ <;> decide)

/-- Claim C6: if a section's header marker never occurs in the input text,
the corresponding result field keeps its default, and a text containing
none of the five markers yields the all-default record — never an error. -/
theorem c6_missing_section_defaults :
    (∀ text : String, hasSub mSummary text.data = false →
      (parse_ai_response text).summary = []) ∧
    (∀ text : String, hasSub mHighlights text.data = false →
      (parse_ai_response text).highlights = []) ∧
    (∀ text : String, hasSub mWhatToDo text.data = false →
      (parse_ai_response text).what_to_do = []) ∧
    (∀ text : String, hasSub mImportantDates text.data = false →
      (parse_ai_response text).important_dates = []) ∧
    (∀ text : String, hasSub mEmailPrompt text.data = false →
      (parse_ai_response text).email_prompt = none) ∧
    (∀ text : String,
      (∀ σ : Sec, hasSub (markerOf σ) text.data = false) →
      parse_ai_response text =
        { summary := [], highlights := [], what_to_do := [],
          important_dates := [], email_prompt := none }) := by
  have F1 : ∀ text : String, hasSub mSummary text.data = false →
      (parse_ai_response text).summary = [] := by
    intro text h
    exact (fold_keep_summary (fun raw hr => no_hasSub_strip_line h raw hr)
      (by decide)).2
  have F2 : ∀ text : String, hasSub mHighlights text.data = false →
      (parse_ai_response text).highlights = [] := by
    intro text h
    exact (fold_keep_hl (fun raw hr => no_hasSub_strip_line h raw hr)
      (by decide)).2
  have F3 : ∀ text : String, hasSub mWhatToDo text.data = false →
      (parse_ai_response text).what_to_do = [] := by
    intro text h
    exact (fold_keep_td (fun raw hr => no_hasSub_strip_line h raw hr)
      (by decide)).2
  have F4 : ∀ text : String, hasSub mImportantDates text.data = false →
      (parse_ai_response text).important_dates = [] := by
    intro text h
    exact (fold_keep_id (fun raw hr => no_hasSub_strip_line h raw hr)
      (by decide)).2
  have F5 : ∀ text : String, hasSub mEmailPrompt text.data = false →
      (parse_ai_response text).email_prompt = none := by
    intro text h
    exact (fold_keep_email (fun raw hr => no_hasSub_strip_line h raw hr)
      (by decide)).2
  refine ⟨F1, F2, F3, F4, F5, ?_⟩
  intro text hall
  have h1 := F1 text (hall Sec.summary)
  have h2 := F2 text (hall Sec.highlights)
  have h3 := F3 text (hall Sec.whatToDo)
  have h4 := F4 text (hall Sec.importantDates)
  have h5 := F5 text (hall Sec.emailPrompt)
  have he : parse_ai_response text =
      ⟨(parse_ai_response text).summary, (parse_ai_response text).highlights,
        (parse_ai_response text).what_to_do,
        (parse_ai_response text).important_dates,
        (parse_ai_response text).email_prompt⟩ := rfl
  rw [he, h1, h2, h3, h4, h5]

/-- Claim C6, witness: a header-free text parses to the all-default record. -/
theorem c6_witness :
    parse_ai_response "completely unstructured text\n- stray bullet\n\nmore" =
      { summary := [], highlights := [], what_to_do := [],
        important_dates := [], email_prompt := none } :=
  c6_missing_section_defaults.2.2.2.2.2
    "completely unstructured text\n- stray bullet\n\nmore"
    (fun σ => by cases σ <;> decide)

/-- Claim C7: when no line of the input contains the Email Prompt marker,
the result's `email_prompt` is absent (`none`), which is distinguishable
from — and never equal to — an empty string. -/
theorem c7_email_absent (text : String)
    (h : ∀ l ∈ splitOnNl text.data, hasSub mEmailPrompt l = false) :
    (parse_ai_response text).email_prompt = none ∧
      (parse_ai_response text).email_prompt ≠ some [] := by
  have hline : ∀ raw ∈ splitOnNl text.data,
      hasSub mEmailPrompt (stripChars raw) = false := by
    intro raw hr
    by_contra hcon
    rw [Bool.not_eq_false] at hcon
    have hr2 := hasSub_stripChars hcon
    rw [h raw hr] at hr2
    cases hr2
  have hnone : (parse_ai_response text).email_prompt = none :=
    (fold_keep_email hline (by decide)).2
  refine ⟨hnone, ?_⟩
  rw [hnone]
  intro hcon
  cases hcon

/-- Claim C7, witness at a concrete text with no Email Prompt marker. -/
theorem c7_witness :
    (parse_ai_response "**Summary:**\nHi there").email_prompt = none ∧
      (parse_ai_response "**Summary:**\nHi there").email_prompt ≠ some [] :=
  c7_email_absent "**Summary:**\nHi there" (by decide)

/-- Claim C8: the parser is deterministic and stateless — two invocations
on the same text produce results equal in every field. -/
theorem c8_deterministic (text : String) (r1 r2 : AnalysisResponse)
    (h1 : parse_ai_response text = r1) (h2 : parse_ai_response text = r2) :
    r1 = r2 ∧ r1.summary = r2.summary ∧ r1.highlights = r2.highlights ∧
      r1.what_to_do = r2.what_to_do ∧
      r1.important_dates = r2.important_dates ∧
      r1.email_prompt = r2.email_prompt := by
  subst h1
  subst h2
  exact ⟨rfl, rfl, rfl, rfl, rfl, rfl⟩

/-- Claim C8, witness at a concrete text. -/
theorem c8_witness :
    parse_ai_response "**Summary:**\nHi" = parse_ai_response "**Summary:**\nHi" ∧
      (parse_ai_response "**Summary:**\nHi").summary =
        (parse_ai_response "**Summary:**\nHi").summary ∧
      (parse_ai_response "**Summary:**\nHi").highlights =
        (parse_ai_response "**Summary:**\nHi").highlights ∧
      (parse_ai_response "**Summary:**\nHi").what_to_do =
        (parse_ai_response "**Summary:**\nHi").what_to_do ∧
      (parse_ai_response "**Summary:**\nHi").important_dates =
        (parse_ai_response "**Summary:**\nHi").important_dates ∧
      (parse_ai_response "**Summary:**\nHi").email_prompt =
        (parse_ai_response "**Summary:**\nHi").email_prompt :=
  c8_deterministic "**Summary:**\nHi" (parse_ai_response "**Summary:**\nHi")
    (parse_ai_response "**Summary:**\nHi") rfl rfl

/-- Claim C9: when a line contains several markers, the section becomes the
one whose check comes first in the fixed order Summary, Highlights,
What To Do, Important Dates, Email Prompt, regardless of position. -/
theorem c9_marker_order (s : ParseState) (raw : List Char) (σ : Sec)
    (h : hasSub (markerOf σ) (stripChars raw) = true)
    (hearlier : ∀ σ' : Sec, secRank σ' < secRank σ →
      hasSub (markerOf σ') (stripChars raw) = false) :
    processLine s raw = { s with current_section := some σ } :=
  procStripped_marker h hearlier

/-- Claim C9, witness: a line with the Email Prompt marker before the
Summary marker still switches to Summary. -/
theorem c9_witness :
    processLine initState "**Email Prompt:** before **Summary:**".data =
      { initState with current_section := some Sec.summary } :=
  c9_marker_order initState "**Email Prompt:** before **Summary:**".data
    Sec.summary (by decide) (fun σ' h' => absurd h' (Nat.not_lt_zero _))

/-- Claim C10: every string the parser stores from input lines is non-empty
and trimmed: bullet items, a non-default summary, and a present email
prompt are all non-empty fixed points of stripping. -/
theorem c10_stored_strings_good (text : String) :
    (∀ x ∈ (parse_ai_response text).highlights, goodStr x) ∧
    (∀ x ∈ (parse_ai_response text).what_to_do, goodStr x) ∧
    (∀ x ∈ (parse_ai_response text).important_dates, goodStr x) ∧
    ((parse_ai_response text).summary ≠ [] →
      goodStr (parse_ai_response text).summary) ∧
    (∀ x, (parse_ai_response text).email_prompt = some x → goodStr x) := by
  have hG : GoodState ((splitOnNl text.data).foldl processLine initState) :=
    fold_good good_init
  exact ⟨hG.hl, hG.td, hG.dates, hG.sum, hG.email⟩

/-- Claim C10, witness: stored bullet items at concrete inputs are good. -/
theorem c10_witness :
    goodStr "A".data ∧ goodStr "2024-01-01: Due date".data :=
  ⟨(c10_stored_strings_good "**Highlights:**\n-   A  ").1 "A".data (by decide),
   (c10_stored_strings_good "**Important Dates:**\n- 2024-01-01: Due date").2.2.1
     "2024-01-01: Due date".data (by decide)⟩
